import Mathlib

set_option maxHeartbeats 1000000
set_option maxRecDepth 8192

/-!
Verification of the non-interactive session driver
(`src/packages/cli/src/nonInteractiveCli.ts`, function `runNonInteractive`).

The driver is embedded as a pure, fuel-indexed interpreter.  External
collaborators (the agent client's `sendMessageStream`, the tool executor
`executeToolCall`, the cancellation signal, and the wall clock used by
`new Date().toISOString()` / `Date.now()`) are modelled as oracles in an
environment record.  Every observable action of the driver (stdout writes,
stderr diagnostics, executor invocations, stream invocations) is recorded in
a trace, and JSONL lines are rendered to real strings by a faithful model of
`JSON.stringify` on the record shapes the driver produces.
-/

namespace NonInteractiveCli

/-- Model of a JSON-serializable argument value (`unknown` entries of a
`Record<string, unknown>` argument mapping).  The driver never constructs or
inspects argument values, it only passes them through; flat values suffice as
the opaque payload universe. -/
inductive JVal where
  | str (s : String)
  | bool (b : Bool)
  | null
deriving DecidableEq, Repr

/-- Model of `Record<string, unknown>`: an ordered field list. -/
abbrev Args := List (String × JVal)

/-- Model of `@google/genai` `Part`: a text part, or an opaque non-text part
(the driver only ever builds text parts and passes other parts through). -/
inductive PartM where
  | text (s : String)
  | blob (tag : Nat)
deriving DecidableEq, Repr

/-- Model of `@google/genai` `Content` (`{ role, parts? }`). -/
structure ContentM where
  role : String
  parts : Option (List PartM)
deriving DecidableEq, Repr

/-- The payload of a `ToolCallRequest` event as the driver reads it
(fields `name`, `args`, `callId`; the latter two may be absent, matching the
optional fields of `FunctionCall` which the driver builds from them). -/
structure TCReq where
  name : String
  args : Option Args
  callId : Option String
deriving DecidableEq, Repr

/-- Model of `FunctionCall` (`{ name, args, id }`) as built at lines 100-105. -/
structure FCall where
  name : String
  args : Option Args
  id : Option String
deriving DecidableEq, Repr

/-- Model of `ToolCallRequestInfo` as built at lines 114-120. -/
structure ToolCallRequestInfo where
  callId : String
  name : String
  args : Args
  isClientInitiated : Bool
  prompt_id : String
deriving DecidableEq, Repr

/-- One entry of a tool response's `responseParts` (`PartUnion`): a plain
string, a `Part` object, or a falsy non-string value (`null`/`undefined`). -/
inductive RespPart where
  | str (s : String)
  | part (p : PartM)
  | nullish
deriving DecidableEq, Repr

/-- `PartListUnion`: a single entry or an ordered sequence of entries. -/
inductive RespParts where
  | single (p : RespPart)
  | arr (ps : List RespPart)
deriving DecidableEq, Repr

/-- Model of the tool executor's response: optional error (its message
string), optional display-result string, optional response parts. -/
structure ToolCallResponse where
  error : Option String
  resultDisplay : Option String
  responseParts : Option RespParts
deriving DecidableEq, Repr

/-- Model of the events of `sendMessageStream`: `Content` (a text fragment),
`ToolCallRequest`, or any other event type, which the driver ignores. -/
inductive GEvent where
  | content (value : String)
  | toolCallRequest (value : TCReq)
  | other
deriving DecidableEq, Repr

/-- JavaScript truthiness of an optional string (`undefined` and `""` are
falsy): `a || b`. -/
def jsOrStr (a : Option String) (b : String) : String :=
  match a with
  | some s => if s = "" then b else s
  | none => b

/-- JavaScript truthiness of a `PartListUnion` value, used by the guard
`if (toolResponse.responseParts)` at line 148: arrays and objects are truthy,
a string is truthy iff nonempty, `null`/`undefined` are falsy. -/
def respTruthy : RespParts → Bool
  | .single (.str s) => !(s = "")
  | .single (.part _) => true
  | .single .nullish => false
  | .arr _ => true

/-- Normalization of one entry (lines 152-158): a string is wrapped as a
text part (the `typeof part === 'string'` check comes first, so even the
empty string is wrapped here), a `Part` object is passed through, and a
falsy non-string entry is skipped. -/
def normPart : RespPart → List PartM
  | .str s => [PartM.text s]
  | .part p => [p]
  | .nullish => []

/-- Normalization of a list of entries, in order. -/
def normList : List RespPart → List PartM
  | [] => []
  | p :: ps => normPart p ++ normList ps

/-- Normalization of a whole `responseParts` value (lines 148-159): the
truthiness guard at line 148 skips a falsy value (absent, a falsy single
entry such as the empty string); otherwise `Array.isArray` flattens a single
entry into a one-element sequence and each entry is normalized in order. -/
def normParts : Option RespParts → List PartM
  | none => []
  | some rp =>
    if respTruthy rp then
      match rp with
      | .single p => normPart p
      | .arr ps => normList ps
    else []

/-- `currentMessages[0]?.parts || []` (line 62): the parts of the first
message of the batch, or the empty list when the first message or its
`parts` field is missing (an array is always truthy, so a present empty
parts list is passed as is). -/
def firstParts : List ContentM → List PartM
  | [] => []
  | m :: _ =>
    match m.parts with
    | some ps => ps
    | none => []

/-- The environment supplying every external collaborator of the driver. -/
structure Env where
  /-- `config.getMaxSessionTurns()`: negative means unlimited. -/
  maxSessionTurns : Int
  /-- The event list produced by the n-th call to
  `geminiClient.sendMessageStream`. -/
  streams : Nat → List GEvent
  /-- `executeToolCall`: the response for a given request. -/
  executor : ToolCallRequestInfo → ToolCallResponse
  /-- Index of the first read of `abortController.signal.aborted` that
  observes the flag set (`none`: never set).  The flag is monotone: every
  later read also observes it. -/
  abortAt : Option Nat
  /-- `new Date().toISOString()` at the n-th time read. -/
  isoClock : Nat → String
  /-- `Date.now()` at the n-th time read. -/
  nowClock : Nat → Nat

/-- Whether the n-th read of the cancellation flag observes it set. -/
def abortedCheck (env : Env) (n : Nat) : Bool :=
  match env.abortAt with
  | some k => decide (k ≤ n)
  | none => false

/-- One observable action of the driver.  stdout actions: `rawText` (plain
mode content write, line 82), the three JSONL records (lines 80, 97, 139),
and `finalNewline` (line 163).  stderr actions (`console.error`):
`limitNotice` (line 54), `cancelNotice` (line 69), `toolErrorDiag`
(line 143). -/
inductive Emission where
  | rawText (s : String)
  | tokenRecord (data timestamp : String)
  | toolCallRecord (name : String) (args : Option Args) (callId : Option String) (timestamp : String)
  | toolResultRecord (callId name result : String) (error : Option String) (timestamp : String)
  | finalNewline
  | limitNotice
  | cancelNotice
  | toolErrorDiag (name msg : String)
deriving DecidableEq, Repr

/-- Output of draining one turn's event stream (lines 67-107). -/
structure DrainOut where
  emissions : List Emission
  contents : List String
  fcs : List FCall
  tick : Nat
  chk : Nat
  cancelled : Bool
deriving DecidableEq, Repr

/-- The `for await (const event of responseStream)` loop (lines 67-107):
each iteration first reads the cancellation flag (line 68; on observing it
set, it prints the cancellation notice and returns, discarding the pulled
event and the rest of the stream), then dispatches on the event type.
`tick` counts time reads, `chk` counts flag reads. -/
def drainEvents (env : Env) (jsonl : Bool) : List GEvent → Nat → Nat → DrainOut
  | [], tick, chk => ⟨[], [], [], tick, chk, false⟩
  | e :: rest, tick, chk =>
    if abortedCheck env chk then
      ⟨[Emission.cancelNotice], [], [], tick, chk, true⟩
    else
      match e with
      | .content v =>
        if jsonl then
          let d := drainEvents env jsonl rest (tick + 1) (chk + 1)
          { d with emissions := Emission.tokenRecord v (env.isoClock tick) :: d.emissions,
                   contents := v :: d.contents }
        else
          let d := drainEvents env jsonl rest tick (chk + 1)
          { d with emissions := Emission.rawText v :: d.emissions,
                   contents := v :: d.contents }
      | .toolCallRequest tc =>
        if jsonl then
          let d := drainEvents env jsonl rest (tick + 1) (chk + 1)
          { d with emissions := Emission.toolCallRecord tc.name tc.args tc.callId (env.isoClock tick) :: d.emissions,
                   fcs := (⟨tc.name, tc.args, tc.callId⟩ : FCall) :: d.fcs }
        else
          let d := drainEvents env jsonl rest tick (chk + 1)
          { d with fcs := (⟨tc.name, tc.args, tc.callId⟩ : FCall) :: d.fcs }
      | .other =>
        drainEvents env jsonl rest tick (chk + 1)

/-- Output of the tool-execution loop of one turn (lines 112-160). -/
structure ExecOut where
  emissions : List Emission
  calls : List ToolCallRequestInfo
  parts : List PartM
  tick : Nat
deriving DecidableEq, Repr

/-- `fc.id ?? fc.name + "-" + Date.now()` (line 113): `Date.now()` is read
only when the id is absent. -/
def resolveCallId (env : Env) (fc : FCall) (tick : Nat) : String × Nat :=
  match fc.id with
  | some i => (i, tick)
  | none => (fc.name ++ "-" ++ toString (env.nowClock tick), tick + 1)

/-- The `result` field of a `tool_result` record (line 134):
`toolResponse.resultDisplay || (toolResponse.error ? toolResponse.error.message : 'Success')`. -/
def emittedResult (resp : ToolCallResponse) : String :=
  jsOrStr resp.resultDisplay (match resp.error with | some m => m | none => "Success")

/-- The `error` field of a `tool_result` record (line 135):
`toolResponse.error ? toolResponse.error.message : null`. -/
def emittedError (resp : ToolCallResponse) : Option String :=
  resp.error

/-- The `for (const fc of functionCalls)` loop (lines 112-160): resolve the
call id, build the request info, invoke the executor, emit the JSONL
`tool_result` record (JSONL mode only), emit the diagnostic when the tool
reported an error, and accumulate the normalized response parts. -/
def execFCalls (env : Env) (jsonl : Bool) (promptId : String) : List FCall → Nat → ExecOut
  | [], tick => ⟨[], [], [], tick⟩
  | fc :: rest, tick =>
    let r := resolveCallId env fc tick
    let ri : ToolCallRequestInfo := ⟨r.1, fc.name, fc.args.getD [], false, promptId⟩
    let resp := env.executor ri
    let recEms : List Emission :=
      if jsonl then
        [Emission.toolResultRecord r.1 fc.name (emittedResult resp) (emittedError resp)
          (env.isoClock r.2)]
      else []
    let t2 := if jsonl then r.2 + 1 else r.2
    let diagEms : List Emission :=
      match resp.error with
      | some m => [Emission.toolErrorDiag fc.name (jsOrStr resp.resultDisplay m)]
      | none => []
    let d := execFCalls env jsonl promptId rest t2
    ⟨recEms ++ diagEms ++ d.emissions, ri :: d.calls, normParts resp.responseParts ++ d.parts, d.tick⟩

/-- How one invocation of the driver ended: normal termination (line 164),
turn limit reached (line 57), cancellation observed (line 70), or the fuel
for the unbounded `while (true)` loop ran out. -/
inductive RunResult where
  | done
  | limitReached
  | cancelled
  | outOfFuel
deriving DecidableEq, Repr

/-- The complete observable trace of one driver invocation. -/
structure RunOut where
  emissions : List Emission
  contents : List String
  calls : List ToolCallRequestInfo
  sends : List (List PartM)
  batches : List (List ContentM)
  result : RunResult
deriving DecidableEq, Repr

/-- The mutable state of the `while (true)` loop. -/
structure SState where
  currentMessages : List ContentM
  turnCount : Nat
  tick : Nat
  chk : Nat
  streamIdx : Nat
deriving DecidableEq, Repr

/-- The guard at lines 50-53:
`config.getMaxSessionTurns() >= 0 && turnCount > config.getMaxSessionTurns()`. -/
def turnLimitHit (env : Env) (turnCount : Nat) : Bool :=
  decide (0 ≤ env.maxSessionTurns) && decide ((turnCount : Int) > env.maxSessionTurns)

/-- The `while (true)` loop (lines 48-166), fuel-indexed.  Each iteration:
increment the turn counter; stop with the limit notice when the configured
maximum is non-negative and exceeded; otherwise call `sendMessageStream`
with the first message's parts, drain the event stream, and either stop on
cancellation, execute the collected tool calls and replace the batch with a
single user message of the normalized response parts, or (zero tool calls)
write the final newline and stop. -/
def runLoop (env : Env) (jsonl : Bool) (promptId : String) : SState → Nat → RunOut
  | _, 0 => ⟨[], [], [], [], [], .outOfFuel⟩
  | st, fuel + 1 =>
    if turnLimitHit env (st.turnCount + 1) then
      ⟨[Emission.limitNotice], [], [], [], [], .limitReached⟩
    else
      let sent := firstParts st.currentMessages
      let d := drainEvents env jsonl (env.streams st.streamIdx) st.tick st.chk
      if d.cancelled then
        ⟨d.emissions, d.contents, [], [sent], [st.currentMessages], .cancelled⟩
      else if d.fcs.isEmpty then
        ⟨d.emissions ++ [Emission.finalNewline], d.contents, [], [sent], [st.currentMessages], .done⟩
      else
        let ex := execFCalls env jsonl promptId d.fcs d.tick
        let next := runLoop env jsonl promptId
          ⟨[⟨"user", some ex.parts⟩], st.turnCount + 1, ex.tick, d.chk, st.streamIdx + 1⟩ fuel
        ⟨d.emissions ++ ex.emissions ++ next.emissions,
         d.contents ++ next.contents,
         ex.calls ++ next.calls,
         sent :: next.sends,
         st.currentMessages :: next.batches,
         next.result⟩

/-- The initial state (lines 44-47): the batch holds a single user message
containing the raw input text and the turn counter is zero. -/
def initState (input : String) : SState :=
  ⟨[⟨"user", some [PartM.text input]⟩], 0, 0, 0, 0⟩

/-- `runNonInteractive config input prompt_id jsonlOutput`, as a trace. -/
def runNI (env : Env) (input promptId : String) (jsonl : Bool) (fuel : Nat) : RunOut :=
  runLoop env jsonl promptId (initState input) fuel

/-! ### Rendering of stdout writes: a model of `JSON.stringify` on the
record shapes produced by the driver. -/

/-- Lowercase hexadecimal digit, as produced by `JSON.stringify` for
`\u00xx` escapes. -/
def hexDig (n : Nat) : Char :=
  if n < 10 then Char.ofNat (48 + n) else Char.ofNat (87 + n)

/-- The escape of one character inside a JSON string literal, following
`JSON.stringify` (ECMA-262 QuoteJSONString): `"` and backslash get a
backslash escape, the named control characters get their short escapes,
all other control characters below U+0020 get a `\u00xx` escape, and every
other character is emitted verbatim. -/
def escChar (c : Char) : List Char :=
  if c = '"' then ['\\', '"']
  else if c = '\\' then ['\\', '\\']
  else if c = '\x08' then ['\\', 'b']
  else if c = '\x0c' then ['\\', 'f']
  else if c = '\n' then ['\\', 'n']
  else if c = '\r' then ['\\', 'r']
  else if c = '\t' then ['\\', 't']
  else if c.toNat < 32 then ['\\', 'u', '0', '0', hexDig (c.toNat / 16), hexDig (c.toNat % 16)]
  else [c]

/-- Escape of a whole character list. -/
def escList : List Char → List Char
  | [] => []
  | c :: cs => escChar c ++ escList cs

/-- Escape of a string. -/
def escape (s : String) : String :=
  ⟨escList s.data⟩

/-- A quoted JSON string literal. -/
def quote (s : String) : String :=
  "\"" ++ escape s ++ "\""

/-- Comma-separated concatenation, as in `JSON.stringify` output. -/
def joinComma : List String → String
  | [] => ""
  | [s] => s
  | s :: ss => s ++ "," ++ joinComma ss

/-- `JSON.stringify` of a flat object whose values are all strings, fields
in insertion order. -/
def strObjRender (fs : List (String × String)) : String :=
  "\x7b" ++ joinComma (fs.map fun p => quote p.1 ++ ":" ++ quote p.2) ++ "\x7d"

/-- `JSON.stringify` of an argument value. -/
def jvalRender : JVal → String
  | .str s => quote s
  | .bool true => "true"
  | .bool false => "false"
  | .null => "null"

/-- `JSON.stringify` of an argument mapping. -/
def argsRender (a : Args) : String :=
  "\x7b" ++ joinComma (a.map fun p => quote p.1 ++ ":" ++ jvalRender p.2) ++ "\x7d"

/-- The body (without the trailing newline) of a JSONL `token` line
(lines 75-80). -/
def tokenBody (data timestamp : String) : String :=
  strObjRender [("type", "token"), ("data", data), ("timestamp", timestamp)]

/-- The rendered `data` object of a `tool_call` record (lines 90-94):
`JSON.stringify` drops fields whose value is `undefined`, so an absent
`args` or `call_id` simply does not appear. -/
def toolCallDataRender (name : String) (args : Option Args) (callId : Option String) : String :=
  "\x7b" ++ joinComma
    (["\"name\":" ++ quote name]
      ++ (match args with | some a => ["\"args\":" ++ argsRender a] | none => [])
      ++ (match callId with | some i => ["\"call_id\":" ++ quote i] | none => []))
    ++ "\x7d"

/-- The body of a JSONL `tool_call` line (lines 87-97). -/
def toolCallBody (name : String) (args : Option Args) (callId : Option String) (timestamp : String) : String :=
  "\x7b\"type\":\"tool_call\",\"data\":" ++ toolCallDataRender name args callId
    ++ ",\"timestamp\":" ++ quote timestamp ++ "\x7d"

/-- The body of a JSONL `tool_result` line (lines 128-139); a present error
renders as its message string, an absent one as `null`. -/
def toolResultBody (callId name result : String) (error : Option String) (timestamp : String) : String :=
  "\x7b\"type\":\"tool_result\",\"data\":\x7b\"call_id\":" ++ quote callId
    ++ ",\"name\":" ++ quote name
    ++ ",\"result\":" ++ quote result
    ++ ",\"error\":" ++ (match error with | some m => quote m | none => "null")
    ++ "\x7d,\"timestamp\":" ++ quote timestamp ++ "\x7d"

/-- Whether an emission is a write to standard output (as opposed to a
`console.error` diagnostic on standard error). -/
def isStdoutEm : Emission → Bool
  | .rawText _ => true
  | .tokenRecord _ _ => true
  | .toolCallRecord _ _ _ _ => true
  | .toolResultRecord _ _ _ _ _ => true
  | .finalNewline => true
  | .limitNotice => false
  | .cancelNotice => false
  | .toolErrorDiag _ _ => false

/-- Whether an emission is one of the three JSONL records. -/
def isJsonlRecord : Emission → Bool
  | .tokenRecord _ _ => true
  | .toolCallRecord _ _ _ _ => true
  | .toolResultRecord _ _ _ _ _ => true
  | _ => false

/-- The exact string written to stdout for a stdout emission (each JSONL
record is written as `JSON.stringify(record) + "\n"`, a raw fragment is
written verbatim, and the end-of-session write is a bare newline).  stderr
emissions contribute nothing to stdout. -/
def renderStdout : Emission → String
  | .rawText s => s
  | .tokenRecord d ts => tokenBody d ts ++ "\n"
  | .toolCallRecord n a cid ts => toolCallBody n a cid ts ++ "\n"
  | .toolResultRecord cid n res err ts => toolResultBody cid n res err ts ++ "\n"
  | .finalNewline => "\n"
  | .limitNotice => ""
  | .cancelNotice => ""
  | .toolErrorDiag _ _ => ""

/-- Concatenation of a list of strings. -/
def strConcat : List String → String
  | [] => ""
  | s :: ss => s ++ strConcat ss

/-- The stdout emissions of a trace, in order. -/
def stdoutEms (ems : List Emission) : List Emission :=
  ems.filter isStdoutEm

/-- Everything a run writes to standard output, as one string. -/
def stdoutOf (out : RunOut) : String :=
  strConcat ((stdoutEms out.emissions).map renderStdout)

/-- The number of newline characters at the end of a string. -/
def trailingNewlines (s : String) : Nat :=
  (s.data.reverse.takeWhile (fun c => c = '\n')).length

/-! ### A JSON parser for the flat string-valued objects the driver emits
(`token` lines), used to state the round-trip property. -/

/-- The value of a hexadecimal digit character. -/
def hexVal (c : Char) : Option Nat :=
  if 48 ≤ c.toNat ∧ c.toNat ≤ 57 then some (c.toNat - 48)
  else if 97 ≤ c.toNat ∧ c.toNat ≤ 102 then some (c.toNat - 87)
  else if 65 ≤ c.toNat ∧ c.toNat ≤ 70 then some (c.toNat - 55)
  else none

/-- The character denoted by a short escape. -/
def unescChar : Char → Option Char
  | '"' => some '"'
  | '\\' => some '\\'
  | '/' => some '/'
  | 'b' => some '\x08'
  | 'f' => some '\x0c'
  | 'n' => some '\n'
  | 'r' => some '\r'
  | 't' => some '\t'
  | _ => none

/-- Parse the remainder of a JSON string literal (the opening quote already
consumed), returning its characters and the input after the closing
quote. -/
def parseStrLit : List Char → Option (List Char × List Char)
  | [] => none
  | c :: rest =>
    if c = '"' then some ([], rest)
    else if c = '\\' then
      match rest with
      | 'u' :: h1 :: h2 :: h3 :: h4 :: r =>
        match hexVal h1, hexVal h2, hexVal h3, hexVal h4 with
        | some a, some b, some g, some d =>
          (parseStrLit r).map fun q => (Char.ofNat (4096 * a + 256 * b + 16 * g + d) :: q.1, q.2)
        | _, _, _, _ => none
      | e :: r =>
        match unescChar e with
        | some ch => (parseStrLit r).map fun q => (ch :: q.1, q.2)
        | none => none
      | [] => none
    else (parseStrLit rest).map fun q => (c :: q.1, q.2)

/-- Parse the fields of a nonempty flat string-valued JSON object, the
opening brace already consumed; succeeds only if the closing brace ends the
input.  Fuel-indexed (one unit per field). -/
def parseFields : Nat → List Char → Option (List (String × String))
  | 0, _ => none
  | fuel + 1, l =>
    match l with
    | '"' :: rest =>
      match parseStrLit rest with
      | some (k, ':' :: '"' :: r2) =>
        match parseStrLit r2 with
        | some (v, ',' :: r4) => (parseFields fuel r4).map fun fs => (String.mk k, String.mk v) :: fs
        | some (v, ['\x7d']) => some [(String.mk k, String.mk v)]
        | _ => none
      | _ => none
    | _ => none

/-- Parse a whole line body as a flat string-valued JSON object. -/
def parseJsonStrObj (s : String) : Option (List (String × String)) :=
  match s.data with
  | '\x7b' :: rest => parseFields rest.length rest
  | _ => none

/-! ### Round-trip of the string escaping and of flat string objects. -/

theorem hexVal_hexDig (n : Nat) (h : n < 16) : hexVal (hexDig n) = some n := by
  interval_cases n <;> decide

theorem parseStrLit_quote (r : List Char) : parseStrLit ('"' :: r) = some ([], r) := by
  rw [parseStrLit.eq_def]; simp

theorem parseStrLit_simple (e ch : Char) (r : List Char) (he : e ≠ 'u') (h : unescChar e = some ch) :
    parseStrLit ('\\' :: e :: r) = (parseStrLit r).map fun q => (ch :: q.1, q.2) := by
  rw [parseStrLit.eq_def]
  have hb : ('\\' = '"') = False := by simp
  simp only [hb, reduceIte]
  split
  · rename_i heq
    injection heq with he1 _
    exact absurd he1 he
  · rename_i heq
    injection heq with he1 hr1
    subst he1; subst hr1
    simp [h]
  · rename_i heq
    simp at heq

theorem parseStrLit_u (d1 d2 d3 d4 : Char) (a b g d : Nat) (r : List Char)
    (e1 : hexVal d1 = some a) (e2 : hexVal d2 = some b)
    (e3 : hexVal d3 = some g) (e4 : hexVal d4 = some d) :
    parseStrLit ('\\' :: 'u' :: d1 :: d2 :: d3 :: d4 :: r) =
      (parseStrLit r).map fun q => (Char.ofNat (4096 * a + 256 * b + 16 * g + d) :: q.1, q.2) := by
  rw [parseStrLit.eq_def]
  have hb : ('\\' = '"') = False := by simp
  simp only [hb, reduceIte]
  split
  · rename_i a2 b2 g2 d2 q1 q2 q3 q4
    rw [e1] at q1; rw [e2] at q2; rw [e3] at q3; rw [e4] at q4
    injection q1 with q1; injection q2 with q2; injection q3 with q3; injection q4 with q4
    subst q1; subst q2; subst q3; subst q4
    rfl
  · rename_i hno
    exact (hno a b g d e1 e2 e3 e4).elim

theorem parseStrLit_raw (c : Char) (r : List Char) (hq : c ≠ '"') (hb : c ≠ '\\') :
    parseStrLit (c :: r) = (parseStrLit r).map fun q => (c :: q.1, q.2) := by
  rw [parseStrLit.eq_def]
  simp [hq, hb]

theorem parseStrLit_escList : ∀ (cs rest : List Char),
    parseStrLit (escList cs ++ '"' :: rest) = some (cs, rest) := by
  intro cs
  induction cs with
  | nil => intro rest; simpa [escList] using parseStrLit_quote rest
  | cons c cs ih =>
    intro rest
    show parseStrLit ((escChar c ++ escList cs) ++ '"' :: rest) = _
    rw [List.append_assoc]
    by_cases h1 : c = '"'
    · subst h1
      show parseStrLit ('\\' :: '"' :: (escList cs ++ '"' :: rest)) = _
      rw [parseStrLit_simple '"' '"' _ (by decide) (by decide), ih]
      rfl
    · by_cases h2 : c = '\\'
      · subst h2
        show parseStrLit ('\\' :: '\\' :: (escList cs ++ '"' :: rest)) = _
        rw [parseStrLit_simple '\\' '\\' _ (by decide) (by decide), ih]
        rfl
      · by_cases h3 : c = '\x08'
        · subst h3
          show parseStrLit ('\\' :: 'b' :: (escList cs ++ '"' :: rest)) = _
          rw [parseStrLit_simple 'b' '\x08' _ (by decide) (by decide), ih]
          rfl
        · by_cases h4 : c = '\x0c'
          · subst h4
            show parseStrLit ('\\' :: 'f' :: (escList cs ++ '"' :: rest)) = _
            rw [parseStrLit_simple 'f' '\x0c' _ (by decide) (by decide), ih]
            rfl
          · by_cases h5 : c = '\n'
            · subst h5
              show parseStrLit ('\\' :: 'n' :: (escList cs ++ '"' :: rest)) = _
              rw [parseStrLit_simple 'n' '\n' _ (by decide) (by decide), ih]
              rfl
            · by_cases h6 : c = '\r'
              · subst h6
                show parseStrLit ('\\' :: 'r' :: (escList cs ++ '"' :: rest)) = _
                rw [parseStrLit_simple 'r' '\r' _ (by decide) (by decide), ih]
                rfl
              · by_cases h7 : c = '\t'
                · subst h7
                  show parseStrLit ('\\' :: 't' :: (escList cs ++ '"' :: rest)) = _
                  rw [parseStrLit_simple 't' '\t' _ (by decide) (by decide), ih]
                  rfl
                · by_cases h8 : c.toNat < 32
                  · have hesc : escChar c =
                        ['\\', 'u', '0', '0', hexDig (c.toNat / 16), hexDig (c.toNat % 16)] := by
                      simp [escChar, h1, h2, h3, h4, h5, h6, h7, h8]
                    rw [hesc]
                    have hd1 : hexVal (hexDig (c.toNat / 16)) = some (c.toNat / 16) :=
                      hexVal_hexDig _ (by omega)
                    have hd2 : hexVal (hexDig (c.toNat % 16)) = some (c.toNat % 16) :=
                      hexVal_hexDig _ (by omega)
                    rw [List.cons_append, List.cons_append, List.cons_append, List.cons_append,
                      List.cons_append, List.cons_append, List.nil_append]
                    rw [parseStrLit_u '0' '0' (hexDig (c.toNat / 16)) (hexDig (c.toNat % 16))
                      0 0 (c.toNat / 16) (c.toNat % 16) _ (by decide) (by decide) hd1 hd2, ih]
                    have harith : 4096 * 0 + 256 * 0 + 16 * (c.toNat / 16) + c.toNat % 16 = c.toNat := by
                      omega
                    rw [harith, Char.ofNat_toNat]
                    rfl
                  · have hesc : escChar c = [c] := by
                      simp [escChar, h1, h2, h3, h4, h5, h6, h7, h8]
                    rw [hesc]
                    rw [List.cons_append, List.nil_append, parseStrLit_raw c _ h1 h2, ih]
                    rfl

theorem parseFields_cons (fuel : Nat) (k v : String) (r4 : List Char) :
    parseFields (fuel + 1)
        ('"' :: (escList k.data ++ '"' :: ':' :: '"' :: (escList v.data ++ '"' :: ',' :: r4)))
      = (parseFields fuel r4).map fun fs => (k, v) :: fs := by
  rw [parseFields.eq_def]
  simp [parseStrLit_escList]

theorem parseFields_last (fuel : Nat) (k v : String) :
    parseFields (fuel + 1)
        ('"' :: (escList k.data ++ '"' :: ':' :: '"' :: (escList v.data ++ '"' :: '\x7d' :: [])))
      = some [(k, v)] := by
  rw [parseFields.eq_def]
  simp [parseStrLit_escList]

theorem data_colon : (":" : String).data = [':'] := rfl

theorem data_comma : ("," : String).data = [','] := rfl

theorem data_rbrace : ("\x7d" : String).data = ['\x7d'] := rfl

theorem data_lbrace : ("\x7b" : String).data = ['\x7b'] := rfl

theorem data_dquote : ("\"" : String).data = ['"'] := rfl

theorem quote_data (s : String) : (quote s).data = '"' :: (escList s.data ++ ['"']) := by
  simp [quote, escape, data_dquote]

theorem joinComma_fields_length (fs : List (String × String)) :
    fs.length ≤ (joinComma (fs.map fun p => quote p.1 ++ ":" ++ quote p.2)).data.length + 1 := by
  match fs with
  | [] => simp
  | [(k, v)] => simp [joinComma]
  | (k, v) :: (k2, v2) :: t =>
    have ih := joinComma_fields_length ((k2, v2) :: t)
    simp only [List.map_cons, joinComma, List.length_cons] at ih ⊢
    simp only [String.data_append, List.length_append, data_colon, data_comma,
      List.length_singleton]
    omega

theorem parseFields_join : ∀ (fs : List (String × String)) (fuel : Nat), fs ≠ [] →
    fs.length ≤ fuel →
    parseFields fuel ((joinComma (fs.map fun p => quote p.1 ++ ":" ++ quote p.2)).data ++ ['\x7d'])
      = some fs := by
  intro fs
  match fs with
  | [] => intro fuel h; exact absurd rfl h
  | [(k, v)] =>
    intro fuel _ hle
    match fuel, hle with
    | fuel + 1, _ =>
      have := parseFields_last fuel k v
      simp only [List.map_cons, List.map_nil, joinComma, String.data_append, quote_data,
        data_colon] at this ⊢
      simpa [List.append_assoc] using this
  | (k, v) :: (k2, v2) :: t =>
    intro fuel _ hle
    match fuel, hle with
    | fuel + 1, hle =>
      have ih := parseFields_join ((k2, v2) :: t) fuel (by simp)
        (by simp only [List.length_cons] at hle ⊢; omega)
      have step := parseFields_cons fuel k v
        ((joinComma (List.map (fun p => quote p.1 ++ ":" ++ quote p.2) ((k2, v2) :: t))).data ++ ['\x7d'])
      rw [ih] at step
      simp only [List.map_cons, joinComma, String.data_append, quote_data, data_colon,
        data_comma] at step ⊢
      simpa [List.append_assoc] using step

theorem parseJsonStrObj_strObjRender (fs : List (String × String)) (h : fs ≠ []) :
    parseJsonStrObj (strObjRender fs) = some fs := by
  have hdata : (strObjRender fs).data =
      '\x7b' :: ((joinComma (fs.map fun p => quote p.1 ++ ":" ++ quote p.2)).data ++ ['\x7d']) := by
    simp [strObjRender, data_lbrace, data_rbrace]
  have hlen : fs.length ≤
      ((joinComma (fs.map fun p => quote p.1 ++ ":" ++ quote p.2)).data ++ ['\x7d']).length := by
    have := joinComma_fields_length fs
    simp only [List.length_append, List.length_singleton]
    omega
  unfold parseJsonStrObj
  rw [hdata]
  exact parseFields_join fs _ h hlen

/-- The full round trip for `token` lines: the body of the line the driver
writes for a content event parses back to exactly the three fields it was
built from. -/
theorem parseJsonStrObj_tokenBody (d ts : String) :
    parseJsonStrObj (tokenBody d ts)
      = some [("type", "token"), ("data", d), ("timestamp", ts)] :=
  parseJsonStrObj_strObjRender _ (by simp)

theorem newline_not_mem_escChar (c : Char) : '\n' ∉ escChar c := by
  unfold escChar
  split_ifs with h1 h2 h3 h4 h5 h6 h7 h8
  · simp
  · simp
  · simp
  · simp
  · simp
  · simp
  · simp
  · have hd1 : hexDig (c.toNat / 16) ≠ '\n' := by
      have : c.toNat / 16 < 16 := by omega
      revert this
      generalize c.toNat / 16 = n
      intro hn
      interval_cases n <;> decide
    have hd2 : hexDig (c.toNat % 16) ≠ '\n' := by
      have : c.toNat % 16 < 16 := by omega
      revert this
      generalize c.toNat % 16 = n
      intro hn
      interval_cases n <;> decide
    simp [hd1.symm, hd2.symm]
  · intro hm
    simp at hm
    subst hm
    exact h5 rfl

theorem newline_not_mem_escList (cs : List Char) : '\n' ∉ escList cs := by
  induction cs with
  | nil => simp [escList]
  | cons c cs ih =>
    simp only [escList, List.mem_append]
    rintro (h | h)
    · exact newline_not_mem_escChar c h
    · exact ih h

theorem newline_not_mem_tokenBody (d ts : String) : '\n' ∉ (tokenBody d ts).data := by
  have h1 := newline_not_mem_escList d.data
  have h2 := newline_not_mem_escList ts.data
  simp only [tokenBody, strObjRender, List.map_cons, List.map_nil, joinComma,
    String.data_append, quote_data, data_colon, data_comma, data_lbrace, data_rbrace,
    List.mem_append, List.mem_cons, List.mem_singleton]
  intro hm
  simp +decide [h1, h2] at hm

/-! ### Characterizations of the interpreter's branches. -/

theorem runLoop_zero (env : Env) (jsonl : Bool) (pid : String) (st : SState) :
    runLoop env jsonl pid st 0 = ⟨[], [], [], [], [], .outOfFuel⟩ := rfl

theorem runLoop_limit (env : Env) (jsonl : Bool) (pid : String) (st : SState) (fuel : Nat)
    (h : turnLimitHit env (st.turnCount + 1) = true) :
    runLoop env jsonl pid st (fuel + 1) = ⟨[Emission.limitNotice], [], [], [], [], .limitReached⟩ := by
  rw [runLoop.eq_def]
  simp [h]

theorem runLoop_cancelled (env : Env) (jsonl : Bool) (pid : String) (st : SState) (fuel : Nat)
    (h : turnLimitHit env (st.turnCount + 1) = false)
    (hc : (drainEvents env jsonl (env.streams st.streamIdx) st.tick st.chk).cancelled = true) :
    runLoop env jsonl pid st (fuel + 1) =
      ⟨(drainEvents env jsonl (env.streams st.streamIdx) st.tick st.chk).emissions,
       (drainEvents env jsonl (env.streams st.streamIdx) st.tick st.chk).contents,
       [], [firstParts st.currentMessages], [st.currentMessages], .cancelled⟩ := by
  rw [runLoop.eq_def]
  simp [h, hc]

theorem runLoop_done (env : Env) (jsonl : Bool) (pid : String) (st : SState) (fuel : Nat)
    (h : turnLimitHit env (st.turnCount + 1) = false)
    (hc : (drainEvents env jsonl (env.streams st.streamIdx) st.tick st.chk).cancelled = false)
    (hf : (drainEvents env jsonl (env.streams st.streamIdx) st.tick st.chk).fcs = []) :
    runLoop env jsonl pid st (fuel + 1) =
      ⟨(drainEvents env jsonl (env.streams st.streamIdx) st.tick st.chk).emissions
         ++ [Emission.finalNewline],
       (drainEvents env jsonl (env.streams st.streamIdx) st.tick st.chk).contents,
       [], [firstParts st.currentMessages], [st.currentMessages], .done⟩ := by
  rw [runLoop.eq_def]
  simp [h, hc, hf]

theorem runLoop_step (env : Env) (jsonl : Bool) (pid : String) (st : SState) (fuel : Nat)
    (h : turnLimitHit env (st.turnCount + 1) = false)
    (hc : (drainEvents env jsonl (env.streams st.streamIdx) st.tick st.chk).cancelled = false)
    (hf : (drainEvents env jsonl (env.streams st.streamIdx) st.tick st.chk).fcs ≠ []) :
    runLoop env jsonl pid st (fuel + 1) =
      (let d := drainEvents env jsonl (env.streams st.streamIdx) st.tick st.chk
       let ex := execFCalls env jsonl pid d.fcs d.tick
       let next := runLoop env jsonl pid
         ⟨[⟨"user", some ex.parts⟩], st.turnCount + 1, ex.tick, d.chk, st.streamIdx + 1⟩ fuel
       ⟨d.emissions ++ ex.emissions ++ next.emissions,
        d.contents ++ next.contents,
        ex.calls ++ next.calls,
        firstParts st.currentMessages :: next.sends,
        st.currentMessages :: next.batches,
        next.result⟩) := by
  rw [runLoop.eq_def]
  simp [h, hc, List.isEmpty_iff, hf]

/-! ### Field extractors used to state trace properties. -/

/-- The `call_id` field of a `tool_call` record emission. -/
def toolCallRecId? : Emission → Option (Option String)
  | .toolCallRecord _ _ cid _ => some cid
  | _ => none

/-- The request payload of a tool-call-request event. -/
def reqFCall? : GEvent → Option FCall
  | .toolCallRequest tc => some ⟨tc.name, tc.args, tc.callId⟩
  | _ => none

/-- The provided call id of a tool-call-request event. -/
def reqCallId? : GEvent → Option (Option String)
  | .toolCallRequest tc => some tc.callId
  | _ => none

/-- The tool name of a tool-call-request event. -/
def reqName? : GEvent → Option String
  | .toolCallRequest tc => some tc.name
  | _ => none

/-- The `(call_id, name, result, error)` data of a `tool_result` record. -/
def toolResultData? : Emission → Option (String × String × String × Option String)
  | .toolResultRecord cid n res err _ => some (cid, n, res, err)
  | _ => none

/-- The `result` field of a `tool_result` record. -/
def toolResultRes? : Emission → Option String
  | .toolResultRecord _ _ res _ _ => some res
  | _ => none

/-- The tool name of a `tool_result` record. -/
def toolResultName? : Emission → Option String
  | .toolResultRecord _ n _ _ _ => some n
  | _ => none

theorem abortedCheck_none (env : Env) (h : env.abortAt = none) (n : Nat) :
    abortedCheck env n = false := by
  simp [abortedCheck, h]

/-! ### Structural lemmas about the event-drain loop. -/

theorem drain_fcs (env : Env) (jsonl : Bool) (h : env.abortAt = none) :
    ∀ (evs : List GEvent) (tick chk : Nat),
      (drainEvents env jsonl evs tick chk).fcs = evs.filterMap reqFCall? := by
  intro evs
  induction evs with
  | nil => intro tick chk; simp [drainEvents]
  | cons e rest ih =>
    intro tick chk
    cases e <;> cases jsonl <;>
      simp [drainEvents, abortedCheck_none env h, reqFCall?, ih]

theorem drain_toolCallRecIds (env : Env) (h : env.abortAt = none) :
    ∀ (evs : List GEvent) (tick chk : Nat),
      (drainEvents env true evs tick chk).emissions.filterMap toolCallRecId? =
        evs.filterMap reqCallId? := by
  intro evs
  induction evs with
  | nil => intro tick chk; simp [drainEvents]
  | cons e rest ih =>
    intro tick chk
    cases e <;>
      simp [drainEvents, abortedCheck_none env h, reqCallId?, toolCallRecId?, ih]

theorem drain_plain_stdout (env : Env) :
    ∀ (evs : List GEvent) (tick chk : Nat),
      stdoutEms (drainEvents env false evs tick chk).emissions =
        (drainEvents env false evs tick chk).contents.map Emission.rawText := by
  intro evs
  induction evs with
  | nil => intro tick chk; simp [drainEvents, stdoutEms]
  | cons e rest ih =>
    intro tick chk
    simp only [stdoutEms] at ih
    by_cases ha : abortedCheck env chk
    · simp [drainEvents, ha, stdoutEms, isStdoutEm]
    · cases e <;>
        simp [drainEvents, ha, stdoutEms, isStdoutEm, ih]

theorem drain_emission_kinds (env : Env) (jsonl : Bool) :
    ∀ (evs : List GEvent) (tick chk : Nat) (e : Emission),
      e ∈ (drainEvents env jsonl evs tick chk).emissions →
        isJsonlRecord e = true ∨ e = Emission.cancelNotice ∨ ∃ s, e = Emission.rawText s := by
  intro evs
  induction evs with
  | nil => intro tick chk e he; simp [drainEvents] at he
  | cons ev rest ih =>
    intro tick chk e he
    by_cases ha : abortedCheck env chk
    · simp [drainEvents, ha] at he
      subst he
      exact Or.inr (Or.inl rfl)
    · cases ev with
      | content v =>
        cases jsonl with
        | false =>
          simp [drainEvents, ha] at he
          rcases he with he | he
          · exact Or.inr (Or.inr ⟨v, he⟩)
          · exact ih _ _ e he
        | true =>
          simp [drainEvents, ha] at he
          rcases he with he | he
          · subst he; exact Or.inl rfl
          · exact ih _ _ e he
      | toolCallRequest tc =>
        cases jsonl with
        | false =>
          simp [drainEvents, ha] at he
          exact ih _ _ e he
        | true =>
          simp [drainEvents, ha] at he
          rcases he with he | he
          · subst he; exact Or.inl rfl
          · exact ih _ _ e he
      | other =>
        simp [drainEvents, ha] at he
        exact ih _ _ e he

/-! ### Structural lemmas about the tool-execution loop. -/

theorem exec_calls_len (env : Env) (jsonl : Bool) (pid : String) :
    ∀ (fcs : List FCall) (tick : Nat),
      (execFCalls env jsonl pid fcs tick).calls.length = fcs.length := by
  intro fcs
  induction fcs with
  | nil => intro tick; simp [execFCalls]
  | cons fc rest ih =>
    intro tick
    simp [execFCalls, ih]

theorem exec_calls_names (env : Env) (jsonl : Bool) (pid : String) :
    ∀ (fcs : List FCall) (tick : Nat),
      (execFCalls env jsonl pid fcs tick).calls.map (fun ri => ri.name)
        = fcs.map (fun fc => fc.name) := by
  intro fcs
  induction fcs with
  | nil => intro tick; simp [execFCalls]
  | cons fc rest ih =>
    intro tick
    simp [execFCalls, ih]

theorem exec_toolResultData (env : Env) (pid : String) :
    ∀ (fcs : List FCall) (tick : Nat),
      (execFCalls env true pid fcs tick).emissions.filterMap toolResultData?
        = (execFCalls env true pid fcs tick).calls.map (fun ri =>
            (ri.callId, ri.name, emittedResult (env.executor ri), emittedError (env.executor ri))) := by
  intro fcs
  induction fcs with
  | nil => intro tick; simp [execFCalls]
  | cons fc rest ih =>
    intro tick
    rcases he : (env.executor ⟨(resolveCallId env fc tick).1, fc.name, fc.args.getD [], false, pid⟩).error with _ | m <;>
      simp [execFCalls, toolResultData?, he, ih]

theorem exec_forall2 (env : Env) (jsonl : Bool) (pid : String) :
    ∀ (fcs : List FCall) (tick : Nat),
      List.Forall₂ (fun (fc : FCall) (ri : ToolCallRequestInfo) =>
          ri.name = fc.name ∧ ri.args = fc.args.getD [] ∧ ri.isClientInitiated = false ∧
          ri.prompt_id = pid ∧
          (match fc.id with
           | some i => ri.callId = i
           | none => ∃ n : Nat, ri.callId = fc.name ++ "-" ++ toString n))
        fcs (execFCalls env jsonl pid fcs tick).calls := by
  intro fcs
  induction fcs with
  | nil => intro tick; simp [execFCalls]
  | cons fc rest ih =>
    intro tick
    rcases hid : fc.id with _ | i <;>
      refine List.Forall₂.cons ?_ (by simpa [execFCalls] using ih _) <;>
      simp [execFCalls, resolveCallId, hid]
    exact ⟨env.nowClock tick, rfl⟩

theorem exec_diag (env : Env) (jsonl : Bool) (pid : String) :
    ∀ (fcs : List FCall) (tick : Nat) (ri : ToolCallRequestInfo) (m : String),
      ri ∈ (execFCalls env jsonl pid fcs tick).calls →
      (env.executor ri).error = some m →
        Emission.toolErrorDiag ri.name (jsOrStr (env.executor ri).resultDisplay m)
          ∈ (execFCalls env jsonl pid fcs tick).emissions := by
  intro fcs
  induction fcs with
  | nil => intro tick ri m hmem; simp [execFCalls] at hmem
  | cons fc rest ih =>
    intro tick ri m hmem herr
    simp only [execFCalls, List.mem_cons] at hmem ⊢
    rcases hmem with hmem | hmem
    · subst hmem
      simp only [herr]
      cases jsonl <;> simp
    · exact List.mem_append_right _ (ih _ ri m hmem herr)

theorem exec_emission_kinds (env : Env) (jsonl : Bool) (pid : String) :
    ∀ (fcs : List FCall) (tick : Nat) (e : Emission),
      e ∈ (execFCalls env jsonl pid fcs tick).emissions →
        (∃ cid n res err ts, e = Emission.toolResultRecord cid n res err ts) ∨
        (∃ n m, e = Emission.toolErrorDiag n m) := by
  intro fcs
  induction fcs with
  | nil => intro tick e he; simp [execFCalls] at he
  | cons fc rest ih =>
    intro tick e he
    simp only [execFCalls, List.mem_append] at he
    rcases he with (he | he) | he
    · cases jsonl with
      | false => simp at he
      | true =>
        simp at he
        subst he
        exact Or.inl ⟨_, _, _, _, _, rfl⟩
    · rcases herr : (env.executor ⟨(resolveCallId env fc tick).1, fc.name, fc.args.getD [], false, pid⟩).error with _ | m
      · rw [herr] at he; simp at he
      · rw [herr] at he
        simp at he
        subst he
        exact Or.inr ⟨_, _, rfl⟩
    · exact ih _ e he

theorem exec_plain_stdout (env : Env) (pid : String) :
    ∀ (fcs : List FCall) (tick : Nat),
      stdoutEms (execFCalls env false pid fcs tick).emissions = [] := by
  intro fcs
  induction fcs with
  | nil => intro tick; simp [execFCalls, stdoutEms]
  | cons fc rest ih =>
    intro tick
    simp only [stdoutEms] at ih
    rcases he : (env.executor ⟨(resolveCallId env fc tick).1, fc.name, fc.args.getD [], false, pid⟩).error with _ | m <;>
      simp [execFCalls, stdoutEms, he, isStdoutEm, ih]

theorem drain_jsonl_kinds (env : Env) :
    ∀ (evs : List GEvent) (tick chk : Nat) (e : Emission),
      e ∈ (drainEvents env true evs tick chk).emissions →
        isJsonlRecord e = true ∨ e = Emission.cancelNotice := by
  intro evs
  induction evs with
  | nil => intro tick chk e he; simp [drainEvents] at he
  | cons ev rest ih =>
    intro tick chk e he
    by_cases ha : abortedCheck env chk
    · simp [drainEvents, ha] at he
      subst he
      exact Or.inr rfl
    · cases ev with
      | content v =>
        simp [drainEvents, ha] at he
        rcases he with he | he
        · subst he; exact Or.inl rfl
        · exact ih _ _ e he
      | toolCallRequest tc =>
        simp [drainEvents, ha] at he
        rcases he with he | he
        · subst he; exact Or.inl rfl
        · exact ih _ _ e he
      | other =>
        simp [drainEvents, ha] at he
        exact ih _ _ e he

theorem drain_no_limitNotice (env : Env) (jsonl : Bool) (evs : List GEvent) (tick chk : Nat) :
    Emission.limitNotice ∉ (drainEvents env jsonl evs tick chk).emissions := by
  intro h
  rcases drain_emission_kinds env jsonl evs tick chk _ h with h | h | ⟨s, h⟩ <;>
    simp [isJsonlRecord] at h

theorem exec_no_limitNotice (env : Env) (jsonl : Bool) (pid : String) (fcs : List FCall) (tick : Nat) :
    Emission.limitNotice ∉ (execFCalls env jsonl pid fcs tick).emissions := by
  intro h
  rcases exec_emission_kinds env jsonl pid fcs tick _ h with ⟨_, _, _, _, _, h⟩ | ⟨_, _, h⟩ <;>
    simp at h

theorem strConcat_append : ∀ (a b : List String), strConcat (a ++ b) = strConcat a ++ strConcat b := by
  intro a b
  induction a with
  | nil => simp [strConcat]
  | cons s rest ih => simp [strConcat, ih, String.append_assoc]

/-- Every JSONL record renders to a complete line: some body followed by a
newline. -/
theorem jsonlRecord_render (e : Emission) (h : isJsonlRecord e = true) :
    ∃ b, renderStdout e = b ++ "\n" := by
  cases e <;> simp [isJsonlRecord] at h <;> exact ⟨_, rfl⟩

/-! ### Run-level lemmas, by induction on the fuel. -/

theorem runLoop_sends_le (env : Env) (jsonl : Bool) (pid : String)
    (hmax : 0 ≤ env.maxSessionTurns) :
    ∀ (fuel : Nat) (st : SState),
      (runLoop env jsonl pid st fuel).sends.length ≤ env.maxSessionTurns.toNat - st.turnCount := by
  intro fuel
  induction fuel with
  | zero => intro st; simp [runLoop_zero]
  | succ fuel ih =>
    intro st
    by_cases hl : turnLimitHit env (st.turnCount + 1) = true
    · rw [runLoop_limit env jsonl pid st fuel hl]
      simp
    · have hl' : turnLimitHit env (st.turnCount + 1) = false := by simpa using hl
      have hcnt : (st.turnCount : Int) + 1 ≤ env.maxSessionTurns := by
        simp [turnLimitHit, hmax] at hl'
        omega
      by_cases hc : (drainEvents env jsonl (env.streams st.streamIdx) st.tick st.chk).cancelled = true
      · rw [runLoop_cancelled env jsonl pid st fuel hl' hc]
        simp
        omega
      · have hc' : (drainEvents env jsonl (env.streams st.streamIdx) st.tick st.chk).cancelled = false := by
          simpa using hc
        by_cases hf : (drainEvents env jsonl (env.streams st.streamIdx) st.tick st.chk).fcs = []
        · rw [runLoop_done env jsonl pid st fuel hl' hc' hf]
          simp
          omega
        · rw [runLoop_step env jsonl pid st fuel hl' hc' hf]
          have := ih ⟨[⟨"user", some (execFCalls env jsonl pid
            (drainEvents env jsonl (env.streams st.streamIdx) st.tick st.chk).fcs
            (drainEvents env jsonl (env.streams st.streamIdx) st.tick st.chk).tick).parts⟩],
            st.turnCount + 1,
            (execFCalls env jsonl pid
              (drainEvents env jsonl (env.streams st.streamIdx) st.tick st.chk).fcs
              (drainEvents env jsonl (env.streams st.streamIdx) st.tick st.chk).tick).tick,
            (drainEvents env jsonl (env.streams st.streamIdx) st.tick st.chk).chk,
            st.streamIdx + 1⟩
          simp only [List.length_cons] at this ⊢
          omega

theorem runLoop_no_fuel_out (env : Env) (jsonl : Bool) (pid : String)
    (hmax : 0 ≤ env.maxSessionTurns) :
    ∀ (fuel : Nat) (st : SState), 1 ≤ fuel →
      env.maxSessionTurns.toNat + 1 ≤ st.turnCount + fuel →
      (runLoop env jsonl pid st fuel).result ≠ .outOfFuel := by
  intro fuel
  induction fuel with
  | zero => intro st h1; omega
  | succ fuel ih =>
    intro st _ hbound
    by_cases hl : turnLimitHit env (st.turnCount + 1) = true
    · rw [runLoop_limit env jsonl pid st fuel hl]
      simp
    · have hl' : turnLimitHit env (st.turnCount + 1) = false := by simpa using hl
      have hcnt : (st.turnCount : Int) + 1 ≤ env.maxSessionTurns := by
        simp [turnLimitHit, hmax] at hl'
        omega
      by_cases hc : (drainEvents env jsonl (env.streams st.streamIdx) st.tick st.chk).cancelled = true
      · rw [runLoop_cancelled env jsonl pid st fuel hl' hc]
        simp
      · have hc' : (drainEvents env jsonl (env.streams st.streamIdx) st.tick st.chk).cancelled = false := by
          simpa using hc
        by_cases hf : (drainEvents env jsonl (env.streams st.streamIdx) st.tick st.chk).fcs = []
        · rw [runLoop_done env jsonl pid st fuel hl' hc' hf]
          simp
        · rw [runLoop_step env jsonl pid st fuel hl' hc' hf]
          have hfuel : 1 ≤ fuel := by omega
          have := ih ⟨[⟨"user", some (execFCalls env jsonl pid
            (drainEvents env jsonl (env.streams st.streamIdx) st.tick st.chk).fcs
            (drainEvents env jsonl (env.streams st.streamIdx) st.tick st.chk).tick).parts⟩],
            st.turnCount + 1,
            (execFCalls env jsonl pid
              (drainEvents env jsonl (env.streams st.streamIdx) st.tick st.chk).fcs
              (drainEvents env jsonl (env.streams st.streamIdx) st.tick st.chk).tick).tick,
            (drainEvents env jsonl (env.streams st.streamIdx) st.tick st.chk).chk,
            st.streamIdx + 1⟩ hfuel (by simp; omega)
          simpa using this

theorem runLoop_limitNotice_mem (env : Env) (jsonl : Bool) (pid : String) :
    ∀ (fuel : Nat) (st : SState),
      (runLoop env jsonl pid st fuel).result = .limitReached →
      Emission.limitNotice ∈ (runLoop env jsonl pid st fuel).emissions := by
  intro fuel
  induction fuel with
  | zero => intro st h; simp [runLoop_zero] at h
  | succ fuel ih =>
    intro st h
    by_cases hl : turnLimitHit env (st.turnCount + 1) = true
    · rw [runLoop_limit env jsonl pid st fuel hl]
      simp
    · have hl' : turnLimitHit env (st.turnCount + 1) = false := by simpa using hl
      by_cases hc : (drainEvents env jsonl (env.streams st.streamIdx) st.tick st.chk).cancelled = true
      · rw [runLoop_cancelled env jsonl pid st fuel hl' hc] at h
        simp at h
      · have hc' : (drainEvents env jsonl (env.streams st.streamIdx) st.tick st.chk).cancelled = false := by
          simpa using hc
        by_cases hf : (drainEvents env jsonl (env.streams st.streamIdx) st.tick st.chk).fcs = []
        · rw [runLoop_done env jsonl pid st fuel hl' hc' hf] at h
          simp at h
        · rw [runLoop_step env jsonl pid st fuel hl' hc' hf] at h ⊢
          simp only at h
          have := ih _ h
          simp only [List.mem_append]
          exact Or.inr this

theorem runLoop_neg_no_limit (env : Env) (jsonl : Bool) (pid : String)
    (hmax : env.maxSessionTurns < 0) :
    ∀ (fuel : Nat) (st : SState),
      Emission.limitNotice ∉ (runLoop env jsonl pid st fuel).emissions ∧
      (runLoop env jsonl pid st fuel).result ≠ .limitReached := by
  intro fuel
  induction fuel with
  | zero => intro st; simp [runLoop_zero]
  | succ fuel ih =>
    intro st
    have hl : turnLimitHit env (st.turnCount + 1) = false := by
      simp [turnLimitHit]
      omega
    by_cases hc : (drainEvents env jsonl (env.streams st.streamIdx) st.tick st.chk).cancelled = true
    · rw [runLoop_cancelled env jsonl pid st fuel hl hc]
      exact ⟨drain_no_limitNotice env jsonl _ _ _, by simp⟩
    · have hc' : (drainEvents env jsonl (env.streams st.streamIdx) st.tick st.chk).cancelled = false := by
        simpa using hc
      by_cases hf : (drainEvents env jsonl (env.streams st.streamIdx) st.tick st.chk).fcs = []
      · rw [runLoop_done env jsonl pid st fuel hl hc' hf]
        constructor
        · intro hmem
          simp only [List.mem_append, List.mem_singleton] at hmem
          rcases hmem with hmem | hmem
          · exact drain_no_limitNotice env jsonl _ _ _ hmem
          · simp at hmem
        · simp
      · rw [runLoop_step env jsonl pid st fuel hl hc' hf]
        constructor
        · intro hmem
          simp only [List.mem_append] at hmem
          rcases hmem with (hmem | hmem) | hmem
          · exact drain_no_limitNotice env jsonl _ _ _ hmem
          · exact exec_no_limitNotice env jsonl pid _ _ hmem
          · exact (ih _).1 hmem
        · exact (ih _).2

theorem runLoop_sends_eq_batches (env : Env) (jsonl : Bool) (pid : String) :
    ∀ (fuel : Nat) (st : SState),
      (runLoop env jsonl pid st fuel).sends =
        (runLoop env jsonl pid st fuel).batches.map firstParts := by
  intro fuel
  induction fuel with
  | zero => intro st; simp [runLoop_zero]
  | succ fuel ih =>
    intro st
    by_cases hl : turnLimitHit env (st.turnCount + 1) = true
    · rw [runLoop_limit env jsonl pid st fuel hl]
      simp
    · have hl' : turnLimitHit env (st.turnCount + 1) = false := by simpa using hl
      by_cases hc : (drainEvents env jsonl (env.streams st.streamIdx) st.tick st.chk).cancelled = true
      · rw [runLoop_cancelled env jsonl pid st fuel hl' hc]
        simp
      · have hc' : (drainEvents env jsonl (env.streams st.streamIdx) st.tick st.chk).cancelled = false := by
          simpa using hc
        by_cases hf : (drainEvents env jsonl (env.streams st.streamIdx) st.tick st.chk).fcs = []
        · rw [runLoop_done env jsonl pid st fuel hl' hc' hf]
          simp
        · rw [runLoop_step env jsonl pid st fuel hl' hc' hf]
          simp only [List.map_cons]
          rw [ih]

theorem runLoop_batches_user (env : Env) (jsonl : Bool) (pid : String) :
    ∀ (fuel : Nat) (st : SState) (ps0 : List PartM),
      st.currentMessages = [ContentM.mk "user" (some ps0)] →
      ∀ b ∈ (runLoop env jsonl pid st fuel).batches, ∃ ps, b = [ContentM.mk "user" (some ps)] := by
  intro fuel
  induction fuel with
  | zero => intro st ps0 hst b hb; simp [runLoop_zero] at hb
  | succ fuel ih =>
    intro st ps0 hst b hb
    by_cases hl : turnLimitHit env (st.turnCount + 1) = true
    · rw [runLoop_limit env jsonl pid st fuel hl] at hb
      simp at hb
    · have hl' : turnLimitHit env (st.turnCount + 1) = false := by simpa using hl
      by_cases hc : (drainEvents env jsonl (env.streams st.streamIdx) st.tick st.chk).cancelled = true
      · rw [runLoop_cancelled env jsonl pid st fuel hl' hc] at hb
        simp at hb
        exact ⟨ps0, hb ▸ hst⟩
      · have hc' : (drainEvents env jsonl (env.streams st.streamIdx) st.tick st.chk).cancelled = false := by
          simpa using hc
        by_cases hf : (drainEvents env jsonl (env.streams st.streamIdx) st.tick st.chk).fcs = []
        · rw [runLoop_done env jsonl pid st fuel hl' hc' hf] at hb
          simp at hb
          exact ⟨ps0, hb ▸ hst⟩
        · rw [runLoop_step env jsonl pid st fuel hl' hc' hf] at hb
          simp only [List.mem_cons] at hb
          rcases hb with hb | hb
          · exact ⟨ps0, hb ▸ hst⟩
          · exact ih _ _ rfl b hb

theorem runLoop_plain_stdout (env : Env) (pid : String) :
    ∀ (fuel : Nat) (st : SState),
      (runLoop env false pid st fuel).result = .done →
      strConcat ((stdoutEms (runLoop env false pid st fuel).emissions).map renderStdout) =
        strConcat (runLoop env false pid st fuel).contents ++ "\n" := by
  intro fuel
  induction fuel with
  | zero => intro st h; simp [runLoop_zero] at h
  | succ fuel ih =>
    intro st h
    by_cases hl : turnLimitHit env (st.turnCount + 1) = true
    · rw [runLoop_limit env false pid st fuel hl] at h
      simp at h
    · have hl' : turnLimitHit env (st.turnCount + 1) = false := by simpa using hl
      by_cases hc : (drainEvents env false (env.streams st.streamIdx) st.tick st.chk).cancelled = true
      · rw [runLoop_cancelled env false pid st fuel hl' hc] at h
        simp at h
      · have hc' : (drainEvents env false (env.streams st.streamIdx) st.tick st.chk).cancelled = false := by
          simpa using hc
        by_cases hf : (drainEvents env false (env.streams st.streamIdx) st.tick st.chk).fcs = []
        · rw [runLoop_done env false pid st fuel hl' hc' hf]
          simp only [stdoutEms, List.filter_append, List.map_append]
          rw [strConcat_append]
          have hd := drain_plain_stdout env (env.streams st.streamIdx) st.tick st.chk
          simp only [stdoutEms] at hd
          rw [hd]
          simp only [List.map_map]
          have hmapid : ∀ (l : List String),
              l.map (renderStdout ∘ Emission.rawText) = l := by
            intro l
            induction l with
            | nil => rfl
            | cons x xs ihl => simp [renderStdout, ihl]
          rw [hmapid]
          simp [strConcat, renderStdout, isStdoutEm]
        · rw [runLoop_step env false pid st fuel hl' hc' hf] at h ⊢
          simp only at h ⊢
          have hnext := ih _ h
          simp only [stdoutEms, List.filter_append, List.map_append] at hnext ⊢
          rw [strConcat_append, strConcat_append]
          have hd := drain_plain_stdout env (env.streams st.streamIdx) st.tick st.chk
          simp only [stdoutEms] at hd
          rw [hd]
          have hex := exec_plain_stdout env pid
            (drainEvents env false (env.streams st.streamIdx) st.tick st.chk).fcs
            (drainEvents env false (env.streams st.streamIdx) st.tick st.chk).tick
          simp only [stdoutEms] at hex
          rw [hex]
          simp only [List.map_map, List.map_nil]
          have hmapid : ∀ (l : List String),
              l.map (renderStdout ∘ Emission.rawText) = l := by
            intro l
            induction l with
            | nil => rfl
            | cons x xs ihl => simp [renderStdout, ihl]
          rw [hmapid, hnext, strConcat_append]
          simp [strConcat, String.append_assoc]

theorem runLoop_done_stdout (env : Env) (jsonl : Bool) (pid : String) :
    ∀ (fuel : Nat) (st : SState),
      (runLoop env jsonl pid st fuel).result = .done →
      ∃ pre, stdoutEms (runLoop env jsonl pid st fuel).emissions = pre ++ [Emission.finalNewline] ∧
        (jsonl = true → ∀ e ∈ pre, isJsonlRecord e = true) := by
  intro fuel
  induction fuel with
  | zero => intro st h; simp [runLoop_zero] at h
  | succ fuel ih =>
    intro st h
    by_cases hl : turnLimitHit env (st.turnCount + 1) = true
    · rw [runLoop_limit env jsonl pid st fuel hl] at h
      simp at h
    · have hl' : turnLimitHit env (st.turnCount + 1) = false := by simpa using hl
      by_cases hc : (drainEvents env jsonl (env.streams st.streamIdx) st.tick st.chk).cancelled = true
      · rw [runLoop_cancelled env jsonl pid st fuel hl' hc] at h
        simp at h
      · have hc' : (drainEvents env jsonl (env.streams st.streamIdx) st.tick st.chk).cancelled = false := by
          simpa using hc
        by_cases hf : (drainEvents env jsonl (env.streams st.streamIdx) st.tick st.chk).fcs = []
        · rw [runLoop_done env jsonl pid st fuel hl' hc' hf]
          refine ⟨stdoutEms (drainEvents env jsonl (env.streams st.streamIdx) st.tick st.chk).emissions, ?_, ?_⟩
          · simp [stdoutEms, List.filter_append, isStdoutEm]
          · rintro rfl e he
            simp only [stdoutEms, List.mem_filter] at he
            rcases drain_jsonl_kinds env _ _ _ _ he.1 with hk | hk
            · exact hk
            · subst hk; simp [isStdoutEm] at he
        · rw [runLoop_step env jsonl pid st fuel hl' hc' hf] at h ⊢
          simp only at h ⊢
          obtain ⟨pre, hpre, hkinds⟩ := ih _ h
          refine ⟨stdoutEms ((drainEvents env jsonl (env.streams st.streamIdx) st.tick st.chk).emissions
            ++ (execFCalls env jsonl pid
                (drainEvents env jsonl (env.streams st.streamIdx) st.tick st.chk).fcs
                (drainEvents env jsonl (env.streams st.streamIdx) st.tick st.chk).tick).emissions) ++ pre, ?_, ?_⟩
          · simp only [stdoutEms, List.filter_append, List.append_assoc] at hpre ⊢
            rw [hpre]
          · rintro rfl e he
            simp only [List.mem_append, stdoutEms, List.mem_filter, List.filter_append] at he
            rcases he with (⟨hm, hs⟩ | ⟨hm, hs⟩) | hm
            · rcases drain_jsonl_kinds env _ _ _ _ hm with hk | hk
              · exact hk
              · subst hk; simp [isStdoutEm] at hs
            · rcases exec_emission_kinds env true pid _ _ _ hm with ⟨c1, n1, r1, e1, t1, hk⟩ | ⟨n1, m1, hk⟩
              · subst hk; rfl
              · subst hk; simp [isStdoutEm] at hs
            · exact hkinds rfl e hm

theorem exec_toolResult_names (env : Env) (pid : String) :
    ∀ (fcs : List FCall) (tick : Nat),
      (execFCalls env true pid fcs tick).emissions.filterMap toolResultName?
        = fcs.map (fun fc => fc.name) := by
  intro fcs
  induction fcs with
  | nil => intro tick; simp [execFCalls]
  | cons fc rest ih =>
    intro tick
    rcases he : (env.executor ⟨(resolveCallId env fc tick).1, fc.name, fc.args.getD [], false, pid⟩).error with _ | m <;>
      simp [execFCalls, toolResultName?, he, ih]

/-! ### Definitions following the specification's words, for refinement
comparisons (the driver's own computations are `emittedResult` and
`normParts`). -/

/-- Modelled from the spec: the claimed `result` field of a `tool_result`
record, reading "the tool's display string if present, else the error
message if present, else the literal string Success" with "present" as plain
presence of the optional field. -/
def claimedResult (resp : ToolCallResponse) : String :=
  match resp.resultDisplay with
  | some d => d
  | none =>
    match resp.error with
    | some m => m
    | none => "Success"

/-- Modelled from the spec: one entry of the claimed normalization, reading
"plain-text entries wrapped as text content parts; other truthy entries
passed through unchanged; falsy entries skipped" with strings counted as
plain text. -/
def claimedNormPart : RespPart → List PartM
  | .str s => [PartM.text s]
  | .part p => [p]
  | .nullish => []

/-- Modelled from the spec: the claimed normalization of a sequence. -/
def claimedNormList : List RespPart → List PartM
  | [] => []
  | p :: ps => claimedNormPart p ++ claimedNormList ps

/-- Modelled from the spec: the claimed normalization of a whole
`responseParts` value ("single part or sequence flattened", then per-entry
normalization), with no outer truthiness guard. -/
def claimedNormParts : Option RespParts → List PartM
  | none => []
  | some (.single p) => claimedNormPart p
  | some (.arr ps) => claimedNormList ps

theorem normList_eq_claimed : ∀ (ps : List RespPart), normList ps = claimedNormList ps := by
  intro ps
  induction ps with
  | nil => rfl
  | cons p rest ih =>
    cases p <;> simp [normList, claimedNormList, normPart, claimedNormPart, ih]

/-! ### Concrete environments for counterexamples and witnesses. -/

/-- An environment whose single stream emits one newline-terminated content
fragment and no tool calls. -/
def envC2 : Env where
  maxSessionTurns := -1
  streams := fun _ => [GEvent.content "a\n"]
  executor := fun _ => ⟨none, none, none⟩
  abortAt := none
  isoClock := fun n => "T" ++ toString n
  nowClock := fun _ => 0

/-- An environment whose first stream emits one tool-call request with no
provided call id. -/
def envC3 : Env where
  maxSessionTurns := -1
  streams := fun n =>
    if n = 0 then [GEvent.toolCallRequest ⟨"search", some [("q", JVal.str "x")], none⟩] else []
  executor := fun _ => ⟨none, none, none⟩
  abortAt := none
  isoClock := fun n => "T" ++ toString n
  nowClock := fun _ => 1000

/-- A tool response whose display string is present but empty. -/
def respC4 : ToolCallResponse := ⟨none, some "", none⟩

/-- An environment whose tool returns `respC4`. -/
def envC4 : Env where
  maxSessionTurns := -1
  streams := fun n =>
    if n = 0 then [GEvent.toolCallRequest ⟨"t", none, some "id1"⟩] else []
  executor := fun _ => respC4
  abortAt := none
  isoClock := fun n => "T" ++ toString n
  nowClock := fun _ => 0

/-- An environment whose tool always fails with an error message. -/
def envC4b : Env where
  maxSessionTurns := -1
  streams := fun n =>
    if n = 0 then [GEvent.toolCallRequest ⟨"t", none, some "c"⟩] else []
  executor := fun _ => ⟨some "boom", none, none⟩
  abortAt := none
  isoClock := fun n => "T" ++ toString n
  nowClock := fun _ => 0

/-- A tool response whose `responseParts` is a single empty string. -/
def respC7 : ToolCallResponse := ⟨none, none, some (RespParts.single (RespPart.str ""))⟩

/-- An environment whose tool returns `respC7`. -/
def envC7 : Env where
  maxSessionTurns := -1
  streams := fun n =>
    if n = 0 then [GEvent.toolCallRequest ⟨"t", none, some "c1"⟩] else []
  executor := fun _ => respC7
  abortAt := none
  isoClock := fun n => "T" ++ toString n
  nowClock := fun _ => 0

/-- An environment with one content fragment per stream and no tool calls. -/
def envW : Env where
  maxSessionTurns := -1
  streams := fun n => if n = 0 then [GEvent.content "hi"] else []
  executor := fun _ => ⟨none, none, none⟩
  abortAt := none
  isoClock := fun n => "T" ++ toString n
  nowClock := fun _ => 0

/-- An environment with turn limit 1. -/
def envLim : Env where
  maxSessionTurns := 1
  streams := fun _ => []
  executor := fun _ => ⟨none, none, none⟩
  abortAt := none
  isoClock := fun _ => ""
  nowClock := fun _ => 0

/-- An environment with turn limit 0. -/
def envZero : Env where
  maxSessionTurns := 0
  streams := fun _ => []
  executor := fun _ => ⟨none, none, none⟩
  abortAt := none
  isoClock := fun _ => ""
  nowClock := fun _ => 0

/-- An environment with a negative (unlimited) turn limit. -/
def envNeg : Env where
  maxSessionTurns := -1
  streams := fun _ => []
  executor := fun _ => ⟨none, none, none⟩
  abortAt := none
  isoClock := fun _ => ""
  nowClock := fun _ => 0

/-- An environment whose cancellation flag is observed set from the first
read on. -/
def envAbort : Env where
  maxSessionTurns := -1
  streams := fun _ => [GEvent.content "x"]
  executor := fun _ => ⟨none, none, none⟩
  abortAt := some 0
  isoClock := fun _ => ""
  nowClock := fun _ => 0

/-! ### The claims. -/

/-- C1: for every configured maximum-turns value `L`: if `L ≥ 0` the driver
performs at most `L` turns (at most `L` calls to `sendMessageStream`), the
loop terminates within `L + 1` iterations, and whenever it stops because of
the limit it has emitted the limit notice; with `L = 0` the very first
iteration emits the limit notice and returns, with zero stream calls and
zero tool executions; if `L < 0` the limit notice is never emitted and the
run never stops because of the turn counter. -/
theorem claim_c1 :
    (∀ (env : Env) (input pid : String) (jsonl : Bool) (fuel : Nat),
        0 ≤ env.maxSessionTurns →
        (runNI env input pid jsonl fuel).sends.length ≤ env.maxSessionTurns.toNat ∧
        (env.maxSessionTurns.toNat + 1 ≤ fuel →
          (runNI env input pid jsonl fuel).result ≠ .outOfFuel) ∧
        ((runNI env input pid jsonl fuel).result = .limitReached →
          Emission.limitNotice ∈ (runNI env input pid jsonl fuel).emissions)) ∧
    (∀ (env : Env) (input pid : String) (jsonl : Bool) (fuel : Nat),
        env.maxSessionTurns = 0 → 1 ≤ fuel →
        runNI env input pid jsonl fuel =
          ⟨[Emission.limitNotice], [], [], [], [], .limitReached⟩) ∧
    (∀ (env : Env) (input pid : String) (jsonl : Bool) (fuel : Nat),
        env.maxSessionTurns < 0 →
        Emission.limitNotice ∉ (runNI env input pid jsonl fuel).emissions ∧
        (runNI env input pid jsonl fuel).result ≠ .limitReached) := by
  refine ⟨?_, ?_, ?_⟩
  · intro env input pid jsonl fuel hmax
    refine ⟨?_, ?_, ?_⟩
    · simpa using runLoop_sends_le env jsonl pid hmax fuel (initState input)
    · intro hfuel
      exact runLoop_no_fuel_out env jsonl pid hmax fuel (initState input)
        (by omega) (by simpa [initState] using hfuel)
    · exact runLoop_limitNotice_mem env jsonl pid fuel (initState input)
  · intro env input pid jsonl fuel hm hfuel
    match fuel, hfuel with
    | fuel + 1, _ =>
      have hl : turnLimitHit env ((initState input).turnCount + 1) = true := by
        simp [turnLimitHit, initState, hm]
      exact runLoop_limit env jsonl pid (initState input) fuel hl
  · intro env input pid jsonl fuel hm
    exact runLoop_neg_no_limit env jsonl pid hm fuel (initState input)

/-- Witness for C1 at concrete environments with limits 1, 0 and -1. -/
theorem claim_c1_witness :
    ((0 : Int) ≤ envLim.maxSessionTurns ∧
      (runNI envLim "hi" "p" false 3).sends.length ≤ envLim.maxSessionTurns.toNat) ∧
    (envZero.maxSessionTurns = 0 ∧ (1 : Nat) ≤ 3 ∧
      runNI envZero "hi" "p" false 3 = ⟨[Emission.limitNotice], [], [], [], [], .limitReached⟩) ∧
    (envNeg.maxSessionTurns < 0 ∧
      Emission.limitNotice ∉ (runNI envNeg "hi" "p" false 3).emissions) :=
  ⟨⟨by decide, (claim_c1.1 envLim "hi" "p" false 3 (by decide)).1⟩,
   ⟨rfl, by decide, claim_c1.2.1 envZero "hi" "p" false 3 rfl (by decide)⟩,
   ⟨by decide, (claim_c1.2.2 envNeg "hi" "p" false 3 (by decide)).1⟩⟩

/-- C2 counterexample: with a single content fragment `"a\n"` and a
newline-free input, the plain-mode output at normal termination is
`"a\n\n"`, which has two trailing newlines, not one: the claim's conclusion
"the user-visible output has exactly one trailing newline for all inputs"
fails. -/
theorem claim_c2_counterexample :
    trailingNewlines (stdoutOf (runNI envC2 "hi" "p" false 2)) = 2 ∧
    ¬ trailingNewlines (stdoutOf (runNI envC2 "hi" "p" false 2)) = 1 := by
  constructor
  · decide
  · decide

/-- C2 (amended): in plain mode every content fragment is written verbatim
with no added newline, and at normal termination the driver appends exactly
one newline, so the whole stdout output equals the concatenation of the
received fragments followed by one newline (hence it has at least one
trailing newline, but exactly one only when no fragment itself ends in a
newline). -/
theorem claim_c2 :
    (∀ (env : Env) (t : String) (rest : List GEvent) (tick chk : Nat),
        abortedCheck env chk = false →
        drainEvents env false (GEvent.content t :: rest) tick chk =
          (let d := drainEvents env false rest tick (chk + 1)
           { d with emissions := Emission.rawText t :: d.emissions,
                    contents := t :: d.contents }) ∧
        renderStdout (Emission.rawText t) = t) ∧
    (∀ (env : Env) (input pid : String) (fuel : Nat),
        (runNI env input pid false fuel).result = .done →
        stdoutOf (runNI env input pid false fuel) =
          strConcat (runNI env input pid false fuel).contents ++ "\n") := by
  constructor
  · intro env t rest tick chk h
    constructor
    · simp [drainEvents, h]
    · rfl
  · intro env input pid fuel h
    have := runLoop_plain_stdout env pid fuel (initState input) (by simpa [runNI] using h)
    simpa [stdoutOf, runNI] using this

/-- Witness for C2 at a concrete environment. -/
theorem claim_c2_witness :
    (runNI envW "q" "p" false 2).result = .done ∧
    stdoutOf (runNI envW "q" "p" false 2) =
      strConcat (runNI envW "q" "p" false 2).contents ++ "\n" :=
  ⟨by decide, claim_c2.2 envW "q" "p" 2 (by decide)⟩

/-- C3 counterexample: a tool-call request named `search` with no provided
id.  The synthesized identifier `search-1000` is used for the executor
request (and the `tool_result` record), but the JSONL `tool_call` record
carries no `call_id` at all (the field value is absent), so the synthesized
identifier is not "used consistently in every record". -/
theorem claim_c3_counterexample :
    (runNI envC3 "q" "p" true 3).calls.map (fun ri => ri.callId) = ["search-1000"] ∧
    (runNI envC3 "q" "p" true 3).emissions.filterMap toolCallRecId? = [none] ∧
    ¬ (some "search-1000" : Option String) = none := by
  refine ⟨by decide, by decide, by decide⟩

/-- C3 (amended): the JSONL `tool_call` record always carries the request's
provided call id verbatim, including its absence (an absent id yields a
record with no `call_id` field, not a synthesized one); at execution time an
explicit id is used verbatim for the executor request, and an absent id is
replaced by a single synthesized `name + "-" + timestamp` identifier; the
`tool_result` record always reuses exactly the executor request's id and
name. -/
theorem claim_c3 :
    (∀ (env : Env) (evs : List GEvent) (tick chk : Nat),
        env.abortAt = none →
        (drainEvents env true evs tick chk).emissions.filterMap toolCallRecId? =
          evs.filterMap reqCallId?) ∧
    (∀ (env : Env) (jsonl : Bool) (pid : String) (fcs : List FCall) (tick : Nat),
        List.Forall₂ (fun (fc : FCall) (ri : ToolCallRequestInfo) =>
            ri.name = fc.name ∧ ri.args = fc.args.getD [] ∧ ri.isClientInitiated = false ∧
            ri.prompt_id = pid ∧
            (match fc.id with
             | some i => ri.callId = i
             | none => ∃ n : Nat, ri.callId = fc.name ++ "-" ++ toString n))
          fcs (execFCalls env jsonl pid fcs tick).calls) ∧
    (∀ (env : Env) (pid : String) (fcs : List FCall) (tick : Nat),
        (execFCalls env true pid fcs tick).emissions.filterMap toolResultData? =
          (execFCalls env true pid fcs tick).calls.map (fun ri =>
            (ri.callId, ri.name, emittedResult (env.executor ri), emittedError (env.executor ri)))) := by
  exact ⟨fun env evs tick chk h => drain_toolCallRecIds env h evs tick chk,
    fun env jsonl pid fcs tick => exec_forall2 env jsonl pid fcs tick,
    fun env pid fcs tick => exec_toolResultData env pid fcs tick⟩

/-- Witness for C3 at a concrete environment. -/
theorem claim_c3_witness :
    envC3.abortAt = none ∧
    (drainEvents envC3 true
        [GEvent.toolCallRequest ⟨"search", some [("q", JVal.str "x")], none⟩] 0 0).emissions.filterMap
        toolCallRecId? =
      [GEvent.toolCallRequest (⟨"search", some [("q", JVal.str "x")], none⟩ : TCReq)].filterMap reqCallId? :=
  ⟨rfl, claim_c3.1 envC3 [GEvent.toolCallRequest ⟨"search", some [("q", JVal.str "x")], none⟩] 0 0 rfl⟩

/-- C4 counterexample: a tool whose display string is present but empty
(`resultDisplay = some ""`).  The claim's reading ("result equal to the
tool's display string if present") requires `result = ""`, but the driver
uses JavaScript truthiness (`||`), so the emitted record has
`result = "Success"`. -/
theorem claim_c4_counterexample :
    (runNI envC4 "q" "p" true 3).emissions.filterMap toolResultRes? = ["Success"] ∧
    respC4.resultDisplay = some "" ∧
    claimedResult respC4 = "" ∧
    ¬ ("Success" : String) = "" := by
  refine ⟨by decide, rfl, rfl, by decide⟩

/-- C4 (amended): every `tool_result` record carries
`result = resultDisplay || (error ? error.message : "Success")` (the display
string only when truthy, i.e. nonempty — which agrees with the claim
whenever the display string is not the empty string) and
`error = error.message` or null; a tool error always emits a user-visible
diagnostic, every requested tool is executed regardless of earlier errors,
and the session continues to the next turn after an erroring tool turn. -/
theorem claim_c4 :
    (∀ (env : Env) (pid : String) (fcs : List FCall) (tick : Nat),
        (execFCalls env true pid fcs tick).emissions.filterMap toolResultData? =
          (execFCalls env true pid fcs tick).calls.map (fun ri =>
            (ri.callId, ri.name, emittedResult (env.executor ri), emittedError (env.executor ri)))) ∧
    (∀ resp : ToolCallResponse, ¬ resp.resultDisplay = some "" →
        emittedResult resp = claimedResult resp) ∧
    (∀ resp : ToolCallResponse, emittedError resp = resp.error) ∧
    (∀ (env : Env) (jsonl : Bool) (pid : String) (fcs : List FCall) (tick : Nat)
        (ri : ToolCallRequestInfo) (m : String),
        ri ∈ (execFCalls env jsonl pid fcs tick).calls →
        (env.executor ri).error = some m →
        Emission.toolErrorDiag ri.name (jsOrStr (env.executor ri).resultDisplay m)
          ∈ (execFCalls env jsonl pid fcs tick).emissions) ∧
    (∀ (env : Env) (jsonl : Bool) (pid : String) (fcs : List FCall) (tick : Nat),
        (execFCalls env jsonl pid fcs tick).calls.length = fcs.length) ∧
    ((runNI envC4b "q" "p" true 3).sends.length = 2 ∧
      (runNI envC4b "q" "p" true 3).result = .done) := by
  refine ⟨fun env pid fcs tick => exec_toolResultData env pid fcs tick, ?_, fun resp => rfl,
    fun env jsonl pid fcs tick ri m hm he => exec_diag env jsonl pid fcs tick ri m hm he,
    fun env jsonl pid fcs tick => exec_calls_len env jsonl pid fcs tick, by decide, by decide⟩
  intro resp hne
  rcases hd : resp.resultDisplay with _ | s
  · simp [emittedResult, claimedResult, jsOrStr, hd]
  · have hs : ¬ s = "" := by
      intro h
      exact hne (by rw [hd, h])
    simp [emittedResult, claimedResult, jsOrStr, hd, hs]

/-- Witness for C4 at a concrete tool response. -/
theorem claim_c4_witness :
    ¬ (⟨none, some "ok", none⟩ : ToolCallResponse).resultDisplay = some "" ∧
    emittedResult ⟨none, some "ok", none⟩ = claimedResult ⟨none, some "ok", none⟩ :=
  ⟨by decide, claim_c4.2.1 ⟨none, some "ok", none⟩ (by decide)⟩

/-- C5: within one turn, the collected tool calls are exactly the
tool-call-request events in arrival order; the execution loop performs
exactly one executor invocation per collected call, in that order (the model
is sequential by construction: each response is consumed before the next
call is made), and in JSONL mode it emits exactly one `tool_result` record
per call, in the same order. -/
theorem claim_c5 :
    (∀ (env : Env) (jsonl : Bool) (evs : List GEvent) (tick chk : Nat),
        env.abortAt = none →
        (drainEvents env jsonl evs tick chk).fcs = evs.filterMap reqFCall?) ∧
    (∀ (env : Env) (jsonl : Bool) (pid : String) (fcs : List FCall) (tick : Nat),
        (execFCalls env jsonl pid fcs tick).calls.length = fcs.length ∧
        (execFCalls env jsonl pid fcs tick).calls.map (fun ri => ri.name) =
          fcs.map (fun fc => fc.name)) ∧
    (∀ (env : Env) (pid : String) (fcs : List FCall) (tick : Nat),
        (execFCalls env true pid fcs tick).emissions.filterMap toolResultName? =
          fcs.map (fun fc => fc.name)) :=
  ⟨fun env jsonl evs tick chk h => drain_fcs env jsonl h evs tick chk,
   fun env jsonl pid fcs tick =>
     ⟨exec_calls_len env jsonl pid fcs tick, exec_calls_names env jsonl pid fcs tick⟩,
   fun env pid fcs tick => exec_toolResult_names env pid fcs tick⟩

/-- Witness for C5 at a concrete environment. -/
theorem claim_c5_witness :
    envC3.abortAt = none ∧
    (drainEvents envC3 true
        [GEvent.toolCallRequest ⟨"search", some [("q", JVal.str "x")], none⟩] 0 0).fcs =
      [GEvent.toolCallRequest (⟨"search", some [("q", JVal.str "x")], none⟩ : TCReq)].filterMap reqFCall? :=
  ⟨rfl, claim_c5.1 envC3 true [GEvent.toolCallRequest ⟨"search", some [("q", JVal.str "x")], none⟩] 0 0 rfl⟩

/-- C6: every `sendMessageStream` call of a run receives exactly
`currentMessages[0]?.parts || []`: the parts of the first message of the
batch at that turn; later messages of the batch contribute nothing, and a
missing first message or missing parts field yields the empty list. -/
theorem claim_c6 :
    (∀ (env : Env) (jsonl : Bool) (pid : String) (st : SState) (fuel : Nat),
        (runLoop env jsonl pid st fuel).sends =
          (runLoop env jsonl pid st fuel).batches.map firstParts) ∧
    (∀ (m : ContentM) (rest : List ContentM), firstParts (m :: rest) = firstParts [m]) ∧
    (∀ (r : String) (ps : List PartM) (rest : List ContentM),
        firstParts (ContentM.mk r (some ps) :: rest) = ps) ∧
    (∀ (r : String) (rest : List ContentM), firstParts (ContentM.mk r none :: rest) = []) ∧
    firstParts [] = [] := by
  refine ⟨fun env jsonl pid st fuel => runLoop_sends_eq_batches env jsonl pid fuel st,
    ?_, fun r ps rest => rfl, fun r rest => rfl, rfl⟩
  intro m rest
  cases hm : m.parts <;> simp [firstParts, hm]

/-- C7 counterexample: a tool whose `responseParts` is the single empty
string.  The claimed normalization (flatten, then wrap plain text as a text
part) yields `[{text: ""}]`, but the driver's outer truthiness guard
(line 148) skips the falsy single string entirely, so the next batch's user
message has an empty parts list. -/
theorem claim_c7_counterexample :
    normParts (some (RespParts.single (RespPart.str ""))) = [] ∧
    claimedNormParts (some (RespParts.single (RespPart.str ""))) = [PartM.text ""] ∧
    (runNI envC7 "i" "p" false 3).batches =
      [[ContentM.mk "user" (some [PartM.text "i"])], [ContentM.mk "user" (some [])]] ∧
    ¬ ([] : List PartM) = [PartM.text ""] := by
  refine ⟨rfl, rfl, by decide, by decide⟩

/-- C7 (amended): the batch is initialized to a single user message holding
the input text, and every batch of a run is exactly one user message; a turn
with tool calls replaces it with one user message whose parts are the
normalized tool responses, where the normalization agrees with the claimed
one (flatten; wrap strings as text parts; pass other truthy entries; skip
falsy entries) except that a falsy single response value — such as the lone
empty string — is skipped entirely by the truthiness guard before
flattening. -/
theorem claim_c7 :
    (∀ input : String,
        (initState input).currentMessages = [ContentM.mk "user" (some [PartM.text input])]) ∧
    (∀ (env : Env) (input pid : String) (jsonl : Bool) (fuel : Nat),
        ∀ b ∈ (runNI env input pid jsonl fuel).batches, ∃ ps, b = [ContentM.mk "user" (some ps)]) ∧
    (∀ o : Option RespParts,
        o = some (RespParts.single (RespPart.str "")) ∨ normParts o = claimedNormParts o) ∧
    normParts (some (RespParts.single (RespPart.str ""))) = [] := by
  refine ⟨fun input => rfl, ?_, ?_, rfl⟩
  · intro env input pid jsonl fuel b hb
    exact runLoop_batches_user env jsonl pid fuel (initState input) [PartM.text input] rfl b hb
  · intro o
    rcases o with _ | rp
    · exact Or.inr rfl
    · rcases rp with p | ps
      · rcases p with s | p | _
        · by_cases hs : s = ""
          · subst hs; exact Or.inl rfl
          · exact Or.inr (by simp [normParts, respTruthy, hs, normPart, claimedNormParts, claimedNormPart])
        · exact Or.inr rfl
        · exact Or.inr rfl
      · exact Or.inr (by simp [normParts, respTruthy, claimedNormParts, normList_eq_claimed])

/-- Witness for C7 at a concrete environment. -/
theorem claim_c7_witness :
    [ContentM.mk "user" (some [PartM.text "i"])] ∈ (runNI envC7 "i" "p" false 3).batches ∧
    (∃ ps, [ContentM.mk "user" (some [PartM.text "i"])] = [ContentM.mk "user" (some ps)]) :=
  ⟨by decide, claim_c7.2.1 envC7 "i" "p" false 3 _ (by decide)⟩

/-- C8: when a read of the cancellation flag during the event drain observes
it set, the driver emits the cancellation notice and stops at once: the
pulled event and all remaining events are discarded (no output, no content,
no collected calls from them), and the whole run ends with no tool
executions in that turn and no further turns. -/
theorem claim_c8 :
    (∀ (env : Env) (jsonl : Bool) (e : GEvent) (rest : List GEvent) (tick chk : Nat),
        abortedCheck env chk = true →
        drainEvents env jsonl (e :: rest) tick chk =
          ⟨[Emission.cancelNotice], [], [], tick, chk, true⟩) ∧
    (∀ (env : Env) (jsonl : Bool) (pid : String) (st : SState) (fuel : Nat),
        turnLimitHit env (st.turnCount + 1) = false →
        (drainEvents env jsonl (env.streams st.streamIdx) st.tick st.chk).cancelled = true →
        runLoop env jsonl pid st (fuel + 1) =
          ⟨(drainEvents env jsonl (env.streams st.streamIdx) st.tick st.chk).emissions,
           (drainEvents env jsonl (env.streams st.streamIdx) st.tick st.chk).contents,
           [], [firstParts st.currentMessages], [st.currentMessages], .cancelled⟩) := by
  constructor
  · intro env jsonl e rest tick chk h
    cases e <;> simp [drainEvents, h]
  · intro env jsonl pid st fuel hl hc
    exact runLoop_cancelled env jsonl pid st fuel hl hc

/-- Witness for C8 at a concrete environment whose flag is set from the
start. -/
theorem claim_c8_witness :
    abortedCheck envAbort 0 = true ∧
    drainEvents envAbort false [GEvent.content "x"] 0 0 =
      ⟨[Emission.cancelNotice], [], [], 0, 0, true⟩ :=
  ⟨rfl, claim_c8.1 envAbort false (GEvent.content "x") [] 0 0 rfl⟩

/-- C9: in JSONL mode a content event with text `t` produces exactly one
emission, whose rendering is a single line (a newline-free body followed by
one newline) that parses as a JSON object with `type = "token"` and
`data = t`. -/
theorem claim_c9 :
    ∀ (env : Env) (t : String) (rest : List GEvent) (tick chk : Nat),
      abortedCheck env chk = false →
      (drainEvents env true (GEvent.content t :: rest) tick chk =
        (let d := drainEvents env true rest (tick + 1) (chk + 1)
         { d with emissions := Emission.tokenRecord t (env.isoClock tick) :: d.emissions,
                  contents := t :: d.contents })) ∧
      renderStdout (Emission.tokenRecord t (env.isoClock tick)) =
        tokenBody t (env.isoClock tick) ++ "\n" ∧
      '\n' ∉ (tokenBody t (env.isoClock tick)).data ∧
      parseJsonStrObj (tokenBody t (env.isoClock tick)) =
        some [("type", "token"), ("data", t), ("timestamp", env.isoClock tick)] ∧
      [("type", "token"), ("data", t), ("timestamp", env.isoClock tick)].lookup "type" =
        some "token" ∧
      [("type", "token"), ("data", t), ("timestamp", env.isoClock tick)].lookup "data" = some t := by
  intro env t rest tick chk h
  refine ⟨by simp [drainEvents, h], rfl, newline_not_mem_tokenBody t (env.isoClock tick),
    parseJsonStrObj_tokenBody t (env.isoClock tick), ?_, ?_⟩
  · simp [List.lookup]
  · have h1 : (("data" : String) == "type") = false := by decide
    have h2 : (("data" : String) == "data") = true := by decide
    simp [List.lookup, h1, h2]

/-- Witness for C9 at a concrete environment. -/
theorem claim_c9_witness :
    abortedCheck envW 0 = false ∧
    parseJsonStrObj (tokenBody "abc" (envW.isoClock 0)) =
      some [("type", "token"), ("data", "abc"), ("timestamp", envW.isoClock 0)] :=
  ⟨rfl, (claim_c9 envW "abc" [] 0 0 rfl).2.2.2.1⟩

/-- C10: the end-of-session newline is written unconditionally on normal
termination in both output modes: the stdout trace always ends with the
bare-newline write, and in JSONL mode everything before it is a JSONL record
rendering as a full line ending in a newline, so the output ends with a
trailing empty line; the bare newline itself is not a JSON object. -/
theorem claim_c10 :
    (∀ (env : Env) (input pid : String) (jsonl : Bool) (fuel : Nat),
        (runNI env input pid jsonl fuel).result = .done →
        ∃ pre, stdoutEms (runNI env input pid jsonl fuel).emissions =
          pre ++ [Emission.finalNewline]) ∧
    (∀ (env : Env) (input pid : String) (fuel : Nat),
        (runNI env input pid true fuel).result = .done →
        ∃ pre, stdoutEms (runNI env input pid true fuel).emissions =
            pre ++ [Emission.finalNewline] ∧
          ∀ e ∈ pre, isJsonlRecord e = true ∧ ∃ b, renderStdout e = b ++ "\n") ∧
    renderStdout Emission.finalNewline = "\n" ∧
    parseJsonStrObj "" = none := by
  refine ⟨?_, ?_, rfl, rfl⟩
  · intro env input pid jsonl fuel h
    obtain ⟨pre, hpre, _⟩ := runLoop_done_stdout env jsonl pid fuel (initState input) h
    exact ⟨pre, hpre⟩
  · intro env input pid fuel h
    obtain ⟨pre, hpre, hkinds⟩ := runLoop_done_stdout env true pid fuel (initState input) h
    exact ⟨pre, hpre, fun e he =>
      ⟨hkinds rfl e he, jsonlRecord_render e (hkinds rfl e he)⟩⟩

/-- Witness for C10 at a concrete environment. -/
theorem claim_c10_witness :
    (runNI envW "q" "p" true 2).result = .done ∧
    ∃ pre, stdoutEms (runNI envW "q" "p" true 2).emissions = pre ++ [Emission.finalNewline] :=
  ⟨by decide, claim_c10.1 envW "q" "p" true 2 (by decide)⟩

end NonInteractiveCli
